import Mathlib

/-!
Verification development for the review-harvesting script `src/main.py`.

The script scrapes product review pages: `collect_all_feedbacks` paginates
through a lazily revealed review listing until an age cutoff is crossed,
`handle_page` turns the raw reviews of one product into records appended to
the global `DATA` list, and `sent_data` drains `DATA` to a Telegram channel.

The embedding below is a direct translation of those three functions.
Time is idealised: the Python code recomputes `datetime.now()` per
comparison; here the cutoff instant `now - timedelta(days=time)` is a fixed
integer `threshold`, and a feedback is "too old" when its `date` is strictly
below `threshold` (mirroring `feedback_date < datetime.now()-timedelta(days=time)`).
The page is modelled as an environment: `items c` is the full element list
returned by `find_elements` after `c` successful expansion clicks, and
`clickable c` tells whether the click performed after `c` previous clicks
succeeds or raises `ElementNotInteractableException`.
-/

/-- One raw review element (`comments__item`). `date` is the parsed
`feedback__date` content; the three optional fields model the three
`find_element` calls in `handle_page` that may raise
`NoSuchElementException` (`none` = element absent): `ratingClass` is the
`class` attribute of `feedback__rating`, `header` the `feedback__header`
text, `text` the `feedback__text` text. -/
structure Feedback where
  date : Int
  ratingClass : Option String
  header : Option String
  text : Option String
deriving DecidableEq

/-- The environment one product page presents to the script. `rating = none`
models the `TimeoutException` of the initial `WebDriverWait`; otherwise it is
the parsed float rating. -/
structure PageModel where
  rating : Option ℚ
  productName : String
  items : Nat → List Feedback
  clickable : Nat → Bool

/-- The fields of one line appended to `DATA`
(`f"{feedback_name}/{product_name}/{sku}/{feedback_stars}/{feedback_text}/{rating}"`),
kept structured rather than rendered. `starRating` is the character
`class[-1]` extracted from the rating element's class attribute. -/
structure ReviewRecord where
  author : Option String
  productName : String
  catalogCode : String
  starRating : Option Char
  body : Option String
  aggregateRating : ℚ
deriving DecidableEq

/-- State of the `while new_feedbacks_list:` loop of `collect_all_feedbacks`:
the accumulator `feedbacks_list`, the number of successful clicks so far, and
the current `new_feedbacks_list`. -/
structure LoopState where
  feedbacks : List Feedback
  clicks : Nat
  newBatch : List Feedback
deriving DecidableEq

/-- Result of one iteration of the pagination loop: the loop either breaks
or falls out of the `while` with a final value of `feedbacks_list`, or
continues with a new state. -/
inductive StepRes where
  | done (result : List Feedback)
  | next (st : LoopState)
deriving DecidableEq

/-- Python variable feedback_border: index of the first too-old feedback of the batch
(the `for index, feedback in enumerate(...)` scan that breaks at the first
feedback with `feedback_date < datetime.now()-timedelta(days=time)`),
`none` when the scan finds no such feedback. -/
def findBorder (threshold : Int) : List Feedback → Option Nat
  | [] => none
  | f :: rest =>
      if f.date < threshold then some 0
      else (findBorder threshold rest).map (fun i => i + 1)

/-- One iteration of the `while` loop of `collect_all_feedbacks`.
`if feedback_border:` is Python truthiness: taken exactly when the border is
a nonzero index. The `.next` branch is the successful
`new_feedbacks_list[-1].click()` followed by the re-query
`driver_var.find_elements(...)[len(feedbacks_list):]`; the final `.done`
branch is the `ElementNotInteractableException` handler, which extends
`feedbacks_list` with `new_feedbacks_list` again and breaks. -/
def stepLoop (pm : PageModel) (threshold : Int) (st : LoopState) : StepRes :=
  if st.newBatch = [] then .done st.feedbacks
  else
    match findBorder threshold st.newBatch with
    | some b =>
        if b ≠ 0 then .done (st.feedbacks ++ st.newBatch.take b)
        else .done st.feedbacks
    | none =>
        let fb : List Feedback := st.feedbacks ++ st.newBatch
        if pm.clickable st.clicks then
          .next ⟨fb, st.clicks + 1, (pm.items (st.clicks + 1)).drop fb.length⟩
        else
          .done (fb ++ st.newBatch)

/-- The pagination loop, fuel-indexed; `none` means the fuel ran out before
the loop finished (the Python loop just keeps running). -/
def loopFeedbacks (pm : PageModel) (threshold : Int) : Nat → LoopState → Option (List Feedback)
  | 0, _ => none
  | fuel + 1, st =>
      match stepLoop pm threshold st with
      | .done r => some r
      | .next st2 => loopFeedbacks pm threshold fuel st2

/-- Model of collect_all_feedbacks(driver_var, time): starts from an empty
accumulator and the initial `find_elements` result. -/
def collect_all_feedbacks (pm : PageModel) (threshold : Int) (fuel : Nat) :
    Option (List Feedback) :=
  loopFeedbacks pm threshold fuel ⟨[], 0, pm.items 0⟩

/-- The per-feedback body of the `for feedback in all_feedbacks:` loop of
`handle_page`: the three sub-fields are extracted by independent
`try/except NoSuchElementException` blocks; `feedback_stars` is the last
character of the rating element's class attribute (`get_attribute('class')[-1]`;
the attribute is nonempty since the element was located by that very class
name), and `if feedback_stars == '5': continue` skips the feedback.
`none` = no record appended, `some rec` = `DATA.append` of `rec`. -/
def process_feedback (product sku : String) (rating : ℚ) (f : Feedback) :
    Option ReviewRecord :=
  let stars : Option Char := f.ratingClass.map String.back
  if stars = some '5' then none
  else some ⟨f.header, product, sku, stars, f.text, rating⟩

/-- Model of handle_page(driver_var, url, sku): returns the records this page
appends to `DATA`. A wait timeout yields nothing; a rating not below 5
skips harvesting; otherwise every collected feedback is processed in order. -/
def handle_page (pm : PageModel) (sku : String) (threshold : Int) (fuel : Nat) :
    List ReviewRecord :=
  match pm.rating with
  | none => []
  | some rating =>
      if rating < 5 then
        match collect_all_feedbacks pm threshold fuel with
        | none => []
        | some fbs => fbs.filterMap (process_feedback pm.productName sku rating)
      else []

/-- Outcome of one `bot.send_message` call: success, or an
`ApiTelegramException` carrying `error_code` and (on a 429) the
`retry_after` duration of the signal. The code under test reads only
`error_code`. -/
inductive SendResult where
  | success
  | apiError (error_code : Nat) (retry_after : Nat)

/-- Observable actions of the delivery loop. `slept` would be a
`time.sleep` call (the module imports `sleep`), `logRetry s` is the
`"Rate limit exceeded. Retrying after {s} seconds..."` print, `logError`
the `"Error: ..."` print, `stopped` the final `stop_bot()`. -/
inductive BotEvent where
  | attempt (msg : String)
  | logRetry (secs : Nat)
  | logError (code : Nat)
  | slept (secs : Nat)
  | stopped
deriving DecidableEq

/-- Model of sent_data(): iterates over `DATA`; on an `ApiTelegramException` with
`error_code == 429` it sets `retry_after = int(err.error_code)` and prints
the retry message (no sleep, no re-send occurs in the source); on any other
error it prints it; then `stop_bot()`. -/
def sent_data (send : String → SendResult) : List String → List BotEvent
  | [] => [.stopped]
  | msg :: rest =>
      (match send msg with
       | .success => [.attempt msg]
       | .apiError code _ =>
           if code = 429 then [.attempt msg, .logRetry code]
           else [.attempt msg, .logError code]) ++ sent_data send rest

/-- Numeric value of the star-rating character (the code stores the digit
character `class[-1]`; its value is `c - '0'`). -/
def starValue (c : Char) : Nat := c.toNat - 48

/-- A recent feedback (dated at the cutoff instant) with all three
sub-fields present; its star rating class ends in the digit 3. -/
def fbFresh : Feedback := ⟨0, some "feedback__rating stars3", some "alice", some "nice"⟩

/-- A feedback older than the cutoff. -/
def fbOld : Feedback := ⟨-100, some "feedback__rating stars2", some "bob", some "meh"⟩

/-- A page with aggregate rating 4, a single fresh review, and a
non-interactable expansion control. -/
def pmOne : PageModel := ⟨some 4, "prod", fun _ => [fbFresh], fun _ => false⟩

/-- A page whose listing already contains a feedback older than the cutoff
while the expansion control stays clickable forever: termination is driven
by the age boundary, not by control exhaustion. -/
def pmStale : PageModel := ⟨some 4, "prod", fun _ => [fbFresh, fbOld], fun _ => true⟩

/-- The dispatcher environment in which every send raises an
ApiTelegramException with error_code 429 whose signal carries a
retry_after of 7 seconds. -/
def sendRateLimited : String → SendResult := fun _ => .apiError 429 7

/-- A page whose aggregate rating is the maximum 5, with a non-5-star
review underneath. -/
def pmFive : PageModel := ⟨some 5, "prod", fun _ => [fbFresh], fun _ => false⟩

/-- A feedback with no header element but with rating class and body. -/
def fbNoName : Feedback := ⟨0, some "feedback__rating stars2", none, some "bad"⟩

theorem findBorder_ne_nil (threshold : Int) (l : List Feedback) (b : Nat)
    (h : findBorder threshold l = some b) : l ≠ [] := by
  intro hl
  subst hl
  simp [findBorder] at h

theorem stepLoop_empty (pm : PageModel) (threshold : Int) (st : LoopState)
    (h : st.newBatch = []) : stepLoop pm threshold st = .done st.feedbacks := by
  unfold stepLoop
  rw [if_pos h]

theorem stepLoop_border_pos (pm : PageModel) (threshold : Int) (st : LoopState)
    (b : Nat) (h1 : findBorder threshold st.newBatch = some b) (h2 : b ≠ 0) :
    stepLoop pm threshold st = .done (st.feedbacks ++ st.newBatch.take b) := by
  unfold stepLoop
  rw [if_neg (findBorder_ne_nil threshold _ b h1), h1]
  simp [h2]

theorem stepLoop_border_zero (pm : PageModel) (threshold : Int) (st : LoopState)
    (h1 : findBorder threshold st.newBatch = some 0) :
    stepLoop pm threshold st = .done st.feedbacks := by
  unfold stepLoop
  rw [if_neg (findBorder_ne_nil threshold _ 0 h1), h1]
  simp

theorem stepLoop_click (pm : PageModel) (threshold : Int) (st : LoopState)
    (hne : st.newBatch ≠ []) (h1 : findBorder threshold st.newBatch = none)
    (h2 : pm.clickable st.clicks = true) :
    stepLoop pm threshold st = .next ⟨st.feedbacks ++ st.newBatch, st.clicks + 1,
      (pm.items (st.clicks + 1)).drop (st.feedbacks ++ st.newBatch).length⟩ := by
  unfold stepLoop
  rw [if_neg hne, h1]
  simp [h2]

theorem stepLoop_noclick (pm : PageModel) (threshold : Int) (st : LoopState)
    (hne : st.newBatch ≠ []) (h1 : findBorder threshold st.newBatch = none)
    (h2 : pm.clickable st.clicks = false) :
    stepLoop pm threshold st =
      .done ((st.feedbacks ++ st.newBatch) ++ st.newBatch) := by
  unfold stepLoop
  rw [if_neg hne, h1]
  simp [h2]

theorem stepLoop_next_eq (pm : PageModel) (threshold : Int) (st st2 : LoopState)
    (h : stepLoop pm threshold st = .next st2) :
    st.newBatch ≠ [] ∧ findBorder threshold st.newBatch = none ∧
      pm.clickable st.clicks = true ∧
      st2 = ⟨st.feedbacks ++ st.newBatch, st.clicks + 1,
        (pm.items (st.clicks + 1)).drop (st.feedbacks ++ st.newBatch).length⟩ := by
  by_cases h1 : st.newBatch = []
  · rw [stepLoop_empty pm threshold st h1] at h
    cases h
  · rcases h2 : findBorder threshold st.newBatch with _ | b
    · rcases h3 : pm.clickable st.clicks with _ | _
      · rw [stepLoop_noclick pm threshold st h1 h2 h3] at h
        cases h
      · rw [stepLoop_click pm threshold st h1 h2 h3] at h
        cases h
        exact ⟨h1, rfl, rfl, rfl⟩
    · rcases Nat.eq_zero_or_pos b with rfl | hb
      · rw [stepLoop_border_zero pm threshold st h2] at h
        cases h
      · rw [stepLoop_border_pos pm threshold st b h2 (Nat.pos_iff_ne_zero.mp hb)] at h
        cases h

theorem stepLoop_done_cases (pm : PageModel) (threshold : Int) (st : LoopState)
    (r : List Feedback) (h : stepLoop pm threshold st = .done r) :
    (st.newBatch = [] ∧ r = st.feedbacks) ∨
    (∃ b, findBorder threshold st.newBatch = some b ∧ b ≠ 0 ∧
      r = st.feedbacks ++ st.newBatch.take b) ∨
    (findBorder threshold st.newBatch = some 0 ∧ r = st.feedbacks) ∨
    (st.newBatch ≠ [] ∧ findBorder threshold st.newBatch = none ∧
      pm.clickable st.clicks = false ∧
      r = (st.feedbacks ++ st.newBatch) ++ st.newBatch) := by
  by_cases h1 : st.newBatch = []
  · rw [stepLoop_empty pm threshold st h1] at h
    cases h
    exact Or.inl ⟨h1, rfl⟩
  · rcases h2 : findBorder threshold st.newBatch with _ | b
    · rcases h3 : pm.clickable st.clicks with _ | _
      · rw [stepLoop_noclick pm threshold st h1 h2 h3] at h
        cases h
        exact Or.inr (Or.inr (Or.inr ⟨h1, rfl, rfl, rfl⟩))
      · rw [stepLoop_click pm threshold st h1 h2 h3] at h
        cases h
    · rcases Nat.eq_zero_or_pos b with rfl | hb
      · rw [stepLoop_border_zero pm threshold st h2] at h
        cases h
        exact Or.inr (Or.inr (Or.inl ⟨rfl, rfl⟩))
      · rw [stepLoop_border_pos pm threshold st b h2 (Nat.pos_iff_ne_zero.mp hb)] at h
        cases h
        exact Or.inr (Or.inl ⟨b, rfl, Nat.pos_iff_ne_zero.mp hb, rfl⟩)

theorem findBorder_none_fresh (threshold : Int) :
    ∀ l : List Feedback, findBorder threshold l = none →
      ∀ x ∈ l, ¬ x.date < threshold := by
  intro l
  induction l with
  | nil => intro _ x hx; cases hx
  | cons f rest ih =>
      intro h x hx
      by_cases hf : f.date < threshold
      · simp [findBorder, hf] at h
      · rcases List.mem_cons.mp hx with rfl | hx2
        · exact hf
        · refine ih ?_ x hx2
          simpa [findBorder, hf] using h

theorem findBorder_take_fresh (threshold : Int) :
    ∀ (l : List Feedback) (b : Nat), findBorder threshold l = some b →
      ∀ x ∈ l.take b, ¬ x.date < threshold := by
  intro l
  induction l with
  | nil => intro b _ x hx; simp at hx
  | cons f rest ih =>
      intro b h x hx
      by_cases hf : f.date < threshold
      · simp [findBorder, hf] at h
        subst h
        simp at hx
      · simp [findBorder, hf] at h
        rcases h with ⟨b0, hb0, rfl⟩
        simp at hx
        rcases hx with rfl | hx
        · exact hf
        · exact ih b0 hb0 x hx

theorem loopFeedbacks_succ_done (pm : PageModel) (threshold : Int) (fuel : Nat)
    (st : LoopState) (r : List Feedback) (h : stepLoop pm threshold st = .done r) :
    loopFeedbacks pm threshold (fuel + 1) st = some r := by
  rw [loopFeedbacks, h]

theorem loopFeedbacks_succ_next (pm : PageModel) (threshold : Int) (fuel : Nat)
    (st st2 : LoopState) (h : stepLoop pm threshold st = .next st2) :
    loopFeedbacks pm threshold (fuel + 1) st = loopFeedbacks pm threshold fuel st2 := by
  rw [loopFeedbacks, h]

theorem loopFeedbacks_fresh (pm : PageModel) (threshold : Int) :
    ∀ (fuel : Nat) (st : LoopState) (r : List Feedback),
      (∀ x ∈ st.feedbacks, ¬ x.date < threshold) →
      loopFeedbacks pm threshold fuel st = some r →
      ∀ x ∈ r, ¬ x.date < threshold := by
  intro fuel
  induction fuel with
  | zero => intro st r _ h; simp [loopFeedbacks] at h
  | succ fuel ih =>
      intro st r hfb h
      cases hstep : stepLoop pm threshold st with
      | done r2 =>
        rw [loopFeedbacks_succ_done pm threshold fuel st r2 hstep] at h
        cases h
        rcases stepLoop_done_cases pm threshold st r hstep with
          ⟨_, rfl⟩ | ⟨b, hb, _, rfl⟩ | ⟨_, rfl⟩ | ⟨_, hnone, _, rfl⟩
        · exact hfb
        · intro x hx
          rcases List.mem_append.mp hx with hx | hx
          · exact hfb x hx
          · exact findBorder_take_fresh threshold st.newBatch b hb x hx
        · exact hfb
        · intro x hx
          rcases List.mem_append.mp hx with hx | hx
          · rcases List.mem_append.mp hx with hx | hx
            · exact hfb x hx
            · exact findBorder_none_fresh threshold st.newBatch hnone x hx
          · exact findBorder_none_fresh threshold st.newBatch hnone x hx
      | next st2 =>
        rw [loopFeedbacks_succ_next pm threshold fuel st st2 hstep] at h
        obtain ⟨-, hnone, -, rfl⟩ := stepLoop_next_eq pm threshold st st2 hstep
        refine ih _ r ?_ h
        intro x hx
        rcases List.mem_append.mp hx with hx | hx
        · exact hfb x hx
        · exact findBorder_none_fresh threshold st.newBatch hnone x hx

theorem loopFeedbacks_mem (pm : PageModel) (threshold : Int) (P : Feedback → Prop)
    (hP : ∀ c, ∀ x ∈ pm.items c, P x) :
    ∀ (fuel : Nat) (st : LoopState) (r : List Feedback),
      (∀ x ∈ st.feedbacks, P x) → (∀ x ∈ st.newBatch, P x) →
      loopFeedbacks pm threshold fuel st = some r →
      ∀ x ∈ r, P x := by
  intro fuel
  induction fuel with
  | zero => intro st r _ _ h; simp [loopFeedbacks] at h
  | succ fuel ih =>
      intro st r hfb hnb h
      cases hstep : stepLoop pm threshold st with
      | done r2 =>
        rw [loopFeedbacks_succ_done pm threshold fuel st r2 hstep] at h
        cases h
        rcases stepLoop_done_cases pm threshold st r hstep with
          ⟨_, rfl⟩ | ⟨b, _, _, rfl⟩ | ⟨_, rfl⟩ | ⟨_, _, _, rfl⟩
        · exact hfb
        · intro x hx
          rcases List.mem_append.mp hx with hx | hx
          · exact hfb x hx
          · exact hnb x (List.take_subset b st.newBatch hx)
        · exact hfb
        · intro x hx
          rcases List.mem_append.mp hx with hx | hx
          · rcases List.mem_append.mp hx with hx | hx
            · exact hfb x hx
            · exact hnb x hx
          · exact hnb x hx
      | next st2 =>
        rw [loopFeedbacks_succ_next pm threshold fuel st st2 hstep] at h
        obtain ⟨-, -, -, rfl⟩ := stepLoop_next_eq pm threshold st st2 hstep
        refine ih _ r ?_ ?_ h
        · intro x hx
          rcases List.mem_append.mp hx with hx | hx
          · exact hfb x hx
          · exact hnb x hx
        · intro x hx
          exact hP (st.clicks + 1) x (List.drop_subset _ _ hx)

theorem collect_all_feedbacks_mem (pm : PageModel) (threshold : Int) (fuel : Nat)
    (r : List Feedback) (P : Feedback → Prop) (hP : ∀ c, ∀ x ∈ pm.items c, P x)
    (h : collect_all_feedbacks pm threshold fuel = some r) :
    ∀ x ∈ r, P x := by
  refine loopFeedbacks_mem pm threshold P hP fuel _ r ?_ ?_ h
  · intro x hx; cases hx
  · intro x hx; exact hP 0 x hx

theorem loopFeedbacks_term (pm : PageModel) (threshold : Int) (N : Nat)
    (hcl : ∀ c, N ≤ c → pm.clickable c = false) :
    ∀ (fuel : Nat) (st : LoopState), N + 1 ≤ fuel + st.clicks → 1 ≤ fuel →
      (loopFeedbacks pm threshold fuel st).isSome = true := by
  intro fuel
  induction fuel with
  | zero => intro st _ h1; cases h1
  | succ fuel ih =>
      intro st hN _
      cases hstep : stepLoop pm threshold st with
      | done r2 =>
          rw [loopFeedbacks_succ_done pm threshold fuel st r2 hstep]
          rfl
      | next st2 =>
          obtain ⟨-, -, hclick, rfl⟩ := stepLoop_next_eq pm threshold st st2 hstep
          rw [loopFeedbacks_succ_next pm threshold fuel st _ hstep]
          rcases Nat.eq_zero_or_pos fuel with rfl | hfuel
          · exfalso
            have hge : N ≤ st.clicks := by omega
            rw [hcl st.clicks hge] at hclick
            cases hclick
          · exact ih _ (by simp only []; omega) hfuel

theorem handle_page_mem (pm : PageModel) (sku : String) (threshold : Int) (fuel : Nat)
    (rec : ReviewRecord) (h : rec ∈ handle_page pm sku threshold fuel) :
    ∃ rating fbs f, pm.rating = some rating ∧ rating < 5 ∧
      collect_all_feedbacks pm threshold fuel = some fbs ∧ f ∈ fbs ∧
      process_feedback pm.productName sku rating f = some rec := by
  unfold handle_page at h
  cases hr : pm.rating with
  | none => rw [hr] at h; dsimp only at h; cases h
  | some rating =>
      rw [hr] at h
      dsimp only at h
      by_cases hlt : rating < 5
      · rw [if_pos hlt] at h
        cases hc : collect_all_feedbacks pm threshold fuel with
        | none => rw [hc] at h; cases h
        | some fbs =>
            rw [hc] at h
            obtain ⟨f, hf, hpf⟩ := List.mem_filterMap.mp h
            exact ⟨rating, fbs, f, rfl, hlt, rfl, hf, hpf⟩
      · rw [if_neg hlt] at h
        cases h

theorem process_feedback_some (product sku : String) (rating : ℚ) (f : Feedback)
    (rec : ReviewRecord) (h : process_feedback product sku rating f = some rec) :
    rec = ⟨f.header, product, sku, f.ratingClass.map String.back, f.text, rating⟩ ∧
      f.ratingClass.map String.back ≠ some '5' := by
  unfold process_feedback at h
  by_cases hs : f.ratingClass.map String.back = some '5'
  · simp [hs] at h
  · simp [hs] at h
    exact ⟨h.symm, hs⟩

/-- Claim C1: every review element returned by collect_all_feedbacks is no
older than the cutoff instant; at a nonzero border only the elements before
the border are retained; and hence every record handle_page appends comes
from a feedback no older than the cutoff. -/
theorem collect_all_feedbacks_age_cutoff (pm : PageModel) (sku : String)
    (threshold : Int) (fuel : Nat) :
    (∀ r, collect_all_feedbacks pm threshold fuel = some r →
      ∀ x ∈ r, threshold ≤ x.date) ∧
    (∀ (st : LoopState) (b : Nat), findBorder threshold st.newBatch = some b → b ≠ 0 →
      stepLoop pm threshold st = .done (st.feedbacks ++ st.newBatch.take b)) ∧
    (∀ rec ∈ handle_page pm sku threshold fuel,
      ∃ rating f, pm.rating = some rating ∧ threshold ≤ f.date ∧
        process_feedback pm.productName sku rating f = some rec) := by
  have main : ∀ r, collect_all_feedbacks pm threshold fuel = some r →
      ∀ x ∈ r, threshold ≤ x.date := by
    intro r hr x hx
    have := loopFeedbacks_fresh pm threshold fuel ⟨[], 0, pm.items 0⟩ r
      (by intro x hx; cases hx) hr x hx
    exact le_of_not_lt this
  refine ⟨main, ?_, ?_⟩
  · intro st b hb hb0
    exact stepLoop_border_pos pm threshold st b hb hb0
  · intro rec hrec
    obtain ⟨rating, fbs, f, hr, -, hc, hf, hpf⟩ :=
      handle_page_mem pm sku threshold fuel rec hrec
    exact ⟨rating, f, hr, main fbs hc f hf, hpf⟩

/-- Witness for C1 on a concrete page: the run returns the doubled fresh
feedback, and every returned element has a date at or after the cutoff 0. -/
theorem collect_all_feedbacks_age_cutoff_witness :
    collect_all_feedbacks pmOne 0 2 = some [fbFresh, fbFresh] ∧
      ∀ x ∈ [fbFresh, fbFresh], (0 : Int) ≤ x.date :=
  ⟨rfl, fun x hx =>
    (collect_all_feedbacks_age_cutoff pmOne "sku1" 0 2).1 [fbFresh, fbFresh] rfl x hx⟩

/-- Claim C2 (code bug): on a non-interactable expansion control the except
branch extends feedbacks_list with new_feedbacks_list a second time, so the
final batch is emitted twice: with one fresh visible review the function
returns that element duplicated, violating at-most-once emission. -/
theorem collect_all_feedbacks_duplicate_emission :
    collect_all_feedbacks pmOne 0 2 = some [fbFresh, fbFresh] ∧
      ¬ ([fbFresh, fbFresh] : List Feedback).Nodup :=
  ⟨rfl, by simp⟩

/-- Claim C3 (code bug): on a 429 the dispatcher merely logs a retry message
whose duration is the error code itself (429, not the signal's 7-second
retry_after), never sleeps, and never re-sends: the message is attempted
exactly once and dropped. -/
theorem sent_data_drops_rate_limited_message :
    sent_data sendRateLimited ["m"] = [.attempt "m", .logRetry 429, .stopped] ∧
      (sent_data sendRateLimited ["m"]).count (.attempt "m") = 1 ∧
      ∀ e ∈ sent_data sendRateLimited ["m"], ∀ s, e ≠ .slept s := by
  refine ⟨rfl, rfl, ?_⟩
  intro e he s hcontra
  subst hcontra
  simp [sent_data, sendRateLimited] at he

/-- Claim C4: if the very first unscanned item of the current batch is
already older than the cutoff, the loop stops at once and returns exactly
the previously retained items. -/
theorem loopFeedbacks_border_at_zero (pm : PageModel) (threshold : Int) (fuel : Nat)
    (st : LoopState) (f : Feedback) (rest : List Feedback)
    (hb : st.newBatch = f :: rest) (hold : f.date < threshold) :
    loopFeedbacks pm threshold (fuel + 1) st = some st.feedbacks := by
  have hfb : findBorder threshold st.newBatch = some 0 := by
    rw [hb]
    simp [findBorder, hold]
  exact loopFeedbacks_succ_done pm threshold fuel st _ (stepLoop_border_zero pm threshold st hfb)

/-- Witness for C4: with [fbFresh] already retained and a too-old feedback
first in the batch, the loop returns exactly [fbFresh]. -/
theorem loopFeedbacks_border_at_zero_witness :
    loopFeedbacks pmOne 0 1 ⟨[fbFresh], 0, [fbOld]⟩ = some [fbFresh] :=
  loopFeedbacks_border_at_zero pmOne 0 0 ⟨[fbFresh], 0, [fbOld]⟩ fbOld [] rfl (by decide)

theorem loopFeedbacks_term_cutoff (pm : PageModel) (threshold : Int) (C : Nat)
    (x : Feedback)
    (hmono : ∀ c, List.IsPrefix (pm.items c) (pm.items (c + 1)))
    (hxC : x ∈ pm.items C) (hxd : x.date < threshold) :
    ∀ (fuel : Nat) (st : LoopState),
      (∀ y ∈ st.feedbacks, ¬ y.date < threshold) →
      List.IsPrefix st.feedbacks (pm.items st.clicks) →
      st.newBatch = (pm.items st.clicks).drop st.feedbacks.length →
      C + 1 ≤ fuel + st.clicks → 1 ≤ fuel →
      (loopFeedbacks pm threshold fuel st).isSome = true := by
  have hmono2 : ∀ c c', c ≤ c' → List.IsPrefix (pm.items c) (pm.items c') := by
    intro c c' hle
    induction c', hle using Nat.le_induction with
    | base => exact List.prefix_refl _
    | succ c' hle ih => exact ih.trans (hmono c')
  have hterm : ∀ st : LoopState,
      (∀ y ∈ st.feedbacks, ¬ y.date < threshold) →
      List.IsPrefix st.feedbacks (pm.items st.clicks) →
      st.newBatch = (pm.items st.clicks).drop st.feedbacks.length →
      C ≤ st.clicks → findBorder threshold st.newBatch ≠ none := by
    intro st hfresh hpre hbatch hC hnone
    have hxmem : x ∈ pm.items st.clicks := (hmono2 C st.clicks hC).subset hxC
    have hfb : st.feedbacks = (pm.items st.clicks).take st.feedbacks.length :=
      List.prefix_iff_eq_take.mp hpre
    have hsplit : st.feedbacks ++ st.newBatch = pm.items st.clicks := by
      conv_lhs => rw [hfb, hbatch]
      exact List.take_append_drop _ _
    have hx2 : x ∈ st.feedbacks ++ st.newBatch := hsplit ▸ hxmem
    rcases List.mem_append.mp hx2 with hx | hx
    · exact hfresh x hx hxd
    · exact findBorder_none_fresh threshold st.newBatch hnone x hx hxd
  intro fuel
  induction fuel with
  | zero => intro st _ _ _ _ h1; cases h1
  | succ fuel ih =>
      intro st hfresh hpre hbatch hCf _
      cases hstep : stepLoop pm threshold st with
      | done r =>
          rw [loopFeedbacks_succ_done pm threshold fuel st r hstep]
          rfl
      | next st2 =>
          obtain ⟨-, hnone, -, rfl⟩ := stepLoop_next_eq pm threshold st st2 hstep
          rw [loopFeedbacks_succ_next pm threshold fuel st _ hstep]
          have hfresh2 : ∀ y ∈ st.feedbacks ++ st.newBatch, ¬ y.date < threshold := by
            intro y hy
            rcases List.mem_append.mp hy with hy | hy
            · exact hfresh y hy
            · exact findBorder_none_fresh threshold st.newBatch hnone y hy
          have hfb : st.feedbacks = (pm.items st.clicks).take st.feedbacks.length :=
            List.prefix_iff_eq_take.mp hpre
          have hsplit : st.feedbacks ++ st.newBatch = pm.items st.clicks := by
            conv_lhs => rw [hfb, hbatch]
            exact List.take_append_drop _ _
          have hpre2 : List.IsPrefix (st.feedbacks ++ st.newBatch)
              (pm.items (st.clicks + 1)) := by
            rw [hsplit]
            exact hmono st.clicks
          rcases Nat.eq_zero_or_pos fuel with rfl | hfuel
          · exact absurd hnone (hterm st hfresh hpre hbatch (by omega))
          · refine ih _ hfresh2 hpre2 rfl ?_ hfuel
            show C + 1 ≤ fuel + (st.clicks + 1)
            omega

/-- Claim C5: every continuing iteration strictly increases the retained
count; with an eventually non-interactable expansion control the run
terminates within the corresponding fuel bound; and with a monotonically
growing listing that eventually shows a feedback older than the cutoff the
run terminates as well, even if the expansion control never exhausts. -/
theorem collect_all_feedbacks_progress_and_terminates (pm : PageModel)
    (threshold : Int) (N : Nat) :
    (∀ st st2, stepLoop pm threshold st = .next st2 →
      st.feedbacks.length < st2.feedbacks.length) ∧
    ((∀ c, N ≤ c → pm.clickable c = false) →
      ∀ fuel, N + 1 ≤ fuel →
        (collect_all_feedbacks pm threshold fuel).isSome = true) ∧
    (∀ (C : Nat) (x : Feedback),
      (∀ c, List.IsPrefix (pm.items c) (pm.items (c + 1))) →
      x ∈ pm.items C → x.date < threshold →
      ∀ fuel, C + 1 ≤ fuel →
        (collect_all_feedbacks pm threshold fuel).isSome = true) := by
  refine ⟨?_, ?_, ?_⟩
  · intro st st2 hstep
    obtain ⟨hne, -, -, rfl⟩ := stepLoop_next_eq pm threshold st st2 hstep
    simp only [List.length_append]
    exact Nat.lt_add_of_pos_right (List.length_pos.mpr hne)
  · intro hcl fuel hf
    exact loopFeedbacks_term pm threshold N hcl fuel ⟨[], 0, pm.items 0⟩
      (by simpa using hf) (by omega)
  · intro C x hmono hxC hxd fuel hf
    refine loopFeedbacks_term_cutoff pm threshold C x hmono hxC hxd fuel
      ⟨[], 0, pm.items 0⟩ ?_ ?_ ?_ ?_ ?_
    · intro y hy
      cases hy
    · exact List.nil_prefix
    · simp
    · simpa using hf
    · omega

/-- Witness for C5: the single-batch page with a dead expansion control
terminates with fuel 1 (bound N = 0), and the page holding a stale feedback
behind an always-clickable control terminates with fuel 1 as well (the
boundary is found at click count 0). -/
theorem collect_all_feedbacks_terminates_witness :
    (collect_all_feedbacks pmOne 0 1).isSome = true ∧
      (collect_all_feedbacks pmStale 0 1).isSome = true :=
  ⟨(collect_all_feedbacks_progress_and_terminates pmOne 0 0).2.1 (fun _ _ => rfl) 1 le_rfl,
   (collect_all_feedbacks_progress_and_terminates pmStale 0 0).2.2 0 fbOld
     (fun _ => List.prefix_refl _) (by decide) (by decide) 1 le_rfl⟩

/-- Claim C6: a perfect aggregate rating short-circuits handle_page — the
rating < 5 guard fails and no record is produced, whatever the reviews are. -/
theorem handle_page_perfect_score (pm : PageModel) (sku : String) (threshold : Int)
    (fuel : Nat) (h : pm.rating = some 5) :
    handle_page pm sku threshold fuel = [] := by
  unfold handle_page
  rw [h]
  dsimp only
  rw [if_neg (lt_irrefl (5 : ℚ))]

/-- Witness for C6: the perfect-score page contributes no records even
though it has a fresh 3-star review. -/
theorem handle_page_perfect_score_witness :
    handle_page pmFive "sku2" 0 2 = [] :=
  handle_page_perfect_score pmFive "sku2" 0 2 rfl

/-- Claim C7: on a page whose star-rating class attributes end in a digit
1-5 (the format the scraper targets), every produced record with a present
starRating has a value strictly below the maximum 5: 5-star reviews are
filtered by the continue. -/
theorem handle_page_star_lt_max (pm : PageModel) (sku : String) (threshold : Int)
    (fuel : Nat)
    (hwf : ∀ c, ∀ f ∈ pm.items c, ∀ s, f.ratingClass = some s →
      String.back s ∈ (['1', '2', '3', '4', '5'] : List Char)) :
    ∀ rec ∈ handle_page pm sku threshold fuel,
      ∀ ch, rec.starRating = some ch → starValue ch < 5 := by
  intro rec hrec ch hch
  obtain ⟨rating, fbs, f, hr, hlt, hc, hf, hpf⟩ :=
    handle_page_mem pm sku threshold fuel rec hrec
  obtain ⟨rfl, hne5⟩ := process_feedback_some _ _ _ _ _ hpf
  simp only at hch
  cases hrc : f.ratingClass with
  | none => rw [hrc] at hch; cases hch
  | some s =>
      rw [hrc] at hch
      simp at hch
      rw [hrc] at hne5
      simp at hne5
      have hmem : String.back s ∈ (['1', '2', '3', '4', '5'] : List Char) :=
        collect_all_feedbacks_mem pm threshold fuel fbs
          (fun f => ∀ s, f.ratingClass = some s →
            String.back s ∈ (['1', '2', '3', '4', '5'] : List Char))
          hwf hc f hf s hrc
      subst hch
      simp at hmem
      rcases hmem with h | h | h | h | h
      · rw [h]; decide
      · rw [h]; decide
      · rw [h]; decide
      · rw [h]; decide
      · exact absurd h hne5

/-- Witness for C7: the record harvested from the concrete page carries the
star character 3, whose value is below 5. -/
theorem handle_page_star_lt_max_witness : starValue '3' < 5 :=
  handle_page_star_lt_max pmOne "sku1" 0 2
    (by
      intro c f hf s hs
      have hfe : f = fbFresh := by simpa [pmOne] using hf
      subst hfe
      simp [fbFresh] at hs
      subst hs
      decide)
    ⟨some "alice", "prod", "sku1", some '3', some "nice", 4⟩
    (by decide) '3' rfl

/-- Claim C8: the three sub-fields of a raw review are extracted
independently: whenever the star filter does not fire, a record is produced
whose author, starRating and body are exactly the review's own three
optional fields — a missing field is omitted without blocking the others. -/
theorem process_feedback_fields_independent (product sku : String) (rating : ℚ)
    (f : Feedback) (h : f.ratingClass.map String.back ≠ some '5') :
    process_feedback product sku rating f =
      some ⟨f.header, product, sku, f.ratingClass.map String.back, f.text, rating⟩ := by
  unfold process_feedback
  simp [h]

/-- Witness for C8: the review missing its author still yields a record;
the absent field is simply none while stars and body are extracted. -/
theorem process_feedback_fields_independent_witness :
    process_feedback "prod" "sku1" 4 fbNoName =
      some ⟨none, "prod", "sku1", some '2', some "bad", 4⟩ :=
  process_feedback_fields_independent "prod" "sku1" 4 fbNoName (by decide)

/-- Claim C9: on a page whose star-rating class attributes end in a digit
1-5, every constructed record's starRating is either absent or a digit
character whose value lies between 1 and 5. -/
theorem handle_page_star_range (pm : PageModel) (sku : String) (threshold : Int)
    (fuel : Nat)
    (hwf : ∀ c, ∀ f ∈ pm.items c, ∀ s, f.ratingClass = some s →
      String.back s ∈ (['1', '2', '3', '4', '5'] : List Char)) :
    ∀ rec ∈ handle_page pm sku threshold fuel,
      ∀ ch, rec.starRating = some ch → 1 ≤ starValue ch ∧ starValue ch ≤ 5 := by
  intro rec hrec ch hch
  obtain ⟨rating, fbs, f, hr, hlt, hc, hf, hpf⟩ :=
    handle_page_mem pm sku threshold fuel rec hrec
  obtain ⟨rfl, hne5⟩ := process_feedback_some _ _ _ _ _ hpf
  simp only at hch
  cases hrc : f.ratingClass with
  | none => rw [hrc] at hch; cases hch
  | some s =>
      rw [hrc] at hch
      simp at hch
      have hmem : String.back s ∈ (['1', '2', '3', '4', '5'] : List Char) :=
        collect_all_feedbacks_mem pm threshold fuel fbs
          (fun f => ∀ s, f.ratingClass = some s →
            String.back s ∈ (['1', '2', '3', '4', '5'] : List Char))
          hwf hc f hf s hrc
      subst hch
      simp at hmem
      rcases hmem with h | h | h | h | h <;> rw [h] <;> exact ⟨by decide, by decide⟩

/-- Witness for C9: the harvested record's star character 3 has value
between 1 and 5. -/
theorem handle_page_star_range_witness : 1 ≤ starValue '3' ∧ starValue '3' ≤ 5 :=
  handle_page_star_range pmOne "sku1" 0 2
    (by
      intro c f hf s hs
      have hfe : f = fbFresh := by simpa [pmOne] using hf
      subst hfe
      simp [fbFresh] at hs
      subst hs
      decide)
    ⟨some "alice", "prod", "sku1", some '3', some "nice", 4⟩
    (by decide) '3' rfl
